import Mathlib

/-!
Verification of the per-key, durable, write-behind chat-history store of
the langchain-chatbot repository, together with the single-flight QA
orchestrator layered on top of it.

The embedding follows the TypeScript sources:
  * src/store/index.ts   (class Store: recordChat, getChatHistory,
                          getFileHandle, resetFileTimer, flushAndCloseFile,
                          getMutex and the mutexes registry)
  * src/qa.ts            (class QA: historyAwareAnswer, storeMarshal,
                          storeUnmarshal)
  * src/common/utils.ts  (MutexManager)

Strings (keys, file names, file contents, marshaled entries) are modelled
as lists of characters.  File-system contents are an association list from
file name to content; a missing entry means the file does not exist.
Operations on one key are serialized by the per-key mutex in the source;
the flat model below therefore presents each public operation as one atomic
state transformer.  The identity of the mutex objects handed out by the
registry (and the deletion performed by flushAndCloseFile) is modelled
separately in the MutexReg development, and the identity of the cached
arrays (aliasing visible to callers of getChatHistory) is modelled in the
HeapStore development.
-/

/-- Character-list strings, used for keys, file names and file contents. -/
abbrev Str := List Char

/-! ### Association lists (the semantics of the JS Map objects used by Store) -/

/-- Lookup in an association list: JS `map.get(k)` (`none` = `undefined`). -/
def alookup {κ : Type} {α : Type} [DecidableEq κ] : List (κ × α) → κ → Option α
  | [], _ => none
  | (k, v) :: rest, key => if k = key then some v else alookup rest key

/-- JS `map.set(k, v)`: replace the binding of `k`, or add it. -/
def aset {κ : Type} {α : Type} [DecidableEq κ] : List (κ × α) → κ → α → List (κ × α)
  | [], key, v => [(key, v)]
  | (k, w) :: rest, key, v =>
    if k = key then (k, v) :: rest else (k, w) :: aset rest key v

/-- JS `map.delete(k)`: remove every binding of `k`. -/
def aerase {κ : Type} {α : Type} [DecidableEq κ] : List (κ × α) → κ → List (κ × α)
  | [], _ => []
  | (k, w) :: rest, key =>
    if k = key then aerase rest key else (k, w) :: aerase rest key

/-! ### JS string primitives used by the cold load (`data.trim().split('\n')`)
and by the flush (`updates.map(marshal).join('\n') + '\n'`). -/

/-- The ECMAScript whitespace and line-terminator set recognised by
`String.prototype.trim`. -/
def isJsWhitespace (c : Char) : Bool :=
  c = ' ' || c = '\t' || c = '\n' || c = '\r' || c = '\x0b' || c = '\x0c' ||
  c = '\u00A0' || c = '\u1680' || ('\u2000' ≤ c && c ≤ '\u200A') ||
  c = '\u2028' || c = '\u2029' || c = '\u202F' || c = '\u205F' ||
  c = '\u3000' || c = '\uFEFF'

/-- Left half of JS `trim`. -/
def jsTrimLeft (l : Str) : Str := l.dropWhile (fun c => isJsWhitespace c)

/-- JS `data.trim()`: drop whitespace from both ends. -/
def jsTrim (l : Str) : Str :=
  ((jsTrimLeft l).reverse.dropWhile (fun c => isJsWhitespace c)).reverse

/-- JS `data.split('\n')`: split on every newline, keeping empty segments;
the split of the empty string is one empty segment. -/
def splitNl : Str → List Str
  | [] => [[]]
  | c :: rest =>
    if c = '\n' then [] :: splitNl rest
    else
      match splitNl rest with
      | [] => [[c]]
      | seg :: segs => (c :: seg) :: segs

/-- JS `lines.join('\n')`. -/
def joinNl : List Str → Str
  | [] => []
  | [l] => l
  | l :: rest => l ++ '\n' :: joinNl rest

/-! ### The Store (src/store/index.ts)

The constructor arguments of `class Store<T>`.  The `storagePath` directory
is a fixed constant for the whole store and is elided from file names; the
second constructor argument is called `filePrefix` in the source but is in
fact appended after the user id, so it is named `fileSuffix` here.  The
unmarshal function returns `none` where the source function would throw.
-/
structure StoreModel (T : Type) where
  fileSuffix : Str
  marshal : T → Str
  unmarshal : Str → Option T

/-- The mutable fields of `class Store<T>`.  `openFiles` keeps the file
names that currently have an open handle (the handle object itself carries
no extra state in this model, since the file contents live in `fs`);
`fileTimers` keeps the file names with an active idle-close timer; `fs` is
the backing file system, one entry per existing file. -/
structure StoreState (T : Type) where
  openFiles : List Str
  fileTimers : List Str
  chatCache : List (Str × List T)
  chatUpdates : List (Str × List T)
  fs : List (Str × Str)
  deriving DecidableEq

/-- A store with no open files, no timers, empty caches, empty directory. -/
def emptyStore (T : Type) : StoreState T := ⟨[], [], [], [], []⟩

/-- `getFileName(userID)`: `path.join(this.storagePath, userID + this.filePrefix)`
with the constant directory component elided. -/
def getFileName {T : Type} (m : StoreModel T) (userID : Str) : Str :=
  userID ++ m.fileSuffix

/-- `path.basename(fileName, this.filePrefix)`: strip the suffix when present
(the directory component is already elided from file names). -/
def dropSuffixCh (l suf : Str) : Str :=
  if suf.length ≤ l.length ∧ l.drop (l.length - suf.length) = suf then
    l.take (l.length - suf.length)
  else l

/-- `lines.map(this.unmarshal)` where unmarshal may throw: the first failing
line aborts the whole map with an exception (`none`). -/
def unmarshalAll {T : Type} (m : StoreModel T) : List Str → Option (List T)
  | [] => some []
  | l :: rest =>
    match m.unmarshal l, unmarshalAll m rest with
    | some t, some ts => some (t :: ts)
    | _, _ => none

/-- The cold-load parse in `getFileHandle`:
`data.trim() ? data.trim().split('\n').map(this.unmarshal) : []`. -/
def coldParse {T : Type} (m : StoreModel T) (data : Str) : Option (List T) :=
  if jsTrim data = [] then some []
  else unmarshalAll m (splitNl (jsTrim data))

/-- `getFileHandle(userID)` (src/store/index.ts lines 84-101): return the
cached handle, or open the file with flag `a+` (which creates it empty when
absent) and, when the chat cache has no entry for the user, seed the cache
by parsing the full file content.  The returned flag is `false` when the
parse throws (the exception propagates to the caller, with the handle
already registered in `openFiles`). -/
def getFileHandle {T : Type} (m : StoreModel T) (userID : Str) (s : StoreState T) :
    Bool × StoreState T :=
  let fileName := getFileName m userID
  if fileName ∈ s.openFiles then (true, s)
  else
    let content := (alookup s.fs fileName).getD []
    let fs1 :=
      match alookup s.fs fileName with
      | some _ => s.fs
      | none => aset s.fs fileName []
    let s1 : StoreState T :=
      { s with fs := fs1, openFiles := fileName :: s.openFiles }
    if (alookup s1.chatCache userID).isSome then (true, s1)
    else
      match coldParse m content with
      | some histories =>
        (true, { s1 with chatCache := aset s1.chatCache userID histories })
      | none => (false, s1)

/-- `resetFileTimer(fileName)` (lines 107-116): clear any existing timer and
arm a fresh one; as a set of armed file names this is an idempotent insert. -/
def resetFileTimer {T : Type} (fileName : Str) (s : StoreState T) : StoreState T :=
  if fileName ∈ s.fileTimers then s
  else { s with fileTimers := fileName :: s.fileTimers }

/-- `recordChat(userID, chatHistory)` (lines 175-199).  The per-key mutex
acquired by the source serializes operations; the whole body is therefore one
atomic transformer here.  The flag is `false` when the cold load inside
`getFileHandle` throws (the error propagates after the finally releases the
mutex, with nothing appended). -/
def recordChat {T : Type} (m : StoreModel T) (userID : Str) (chat : T)
    (s : StoreState T) : Bool × StoreState T :=
  let s0 := resetFileTimer (getFileName m userID) s
  let opened :=
    if (alookup s0.chatCache userID).isSome then (true, s0)
    else getFileHandle m userID s0
  if opened.1 then
    let s1 := opened.2
    let s2 :=
      if (alookup s1.chatUpdates userID).isSome then s1
      else { s1 with chatUpdates := aset s1.chatUpdates userID [] }
    let upd2 := aset s2.chatUpdates userID ((alookup s2.chatUpdates userID).getD [] ++ [chat])
    let s3 : StoreState T := { s2 with chatUpdates := upd2 }
    let cached := (alookup s3.chatCache userID).getD []
    (true, { s3 with chatCache := aset s3.chatCache userID (cached ++ [chat]) })
  else (false, opened.2)

/-- `getChatHistory(userID)` (lines 210-228): reset the timer, cold load if
the cache has no entry, and return the cached history.  `none` is returned
when the cold load throws. -/
def getChatHistory {T : Type} (m : StoreModel T) (userID : Str) (s : StoreState T) :
    Option (List T) × StoreState T :=
  let s0 := resetFileTimer (getFileName m userID) s
  let opened :=
    if (alookup s0.chatCache userID).isSome then (true, s0)
    else getFileHandle m userID s0
  if opened.1 then
    (some ((alookup opened.2.chatCache userID).getD []), opened.2)
  else (none, opened.2)

/-- `flushAndCloseFile(fileName)` (lines 122-160), run by the idle timer.
`writeOk` injects the success or failure of the `fileHandle.write` call (a
failure is caught and logged, keeping `chatUpdates`); a failing cold load
inside the inner `getFileHandle` is caught by the same catch.  The close
block then runs: a close failure only affects logging, so it is not
modelled; its finally clears the handle, the timer and the chat cache.
After the outer finally releases the mutex, the source also deletes the
mutex registry entry for the user; mutex identity is modelled by `MutexReg`
below. -/
def flushAndCloseFile {T : Type} (m : StoreModel T) (fileName : Str) (writeOk : Bool)
    (s : StoreState T) : StoreState T :=
  let userID := dropSuffixCh fileName m.fileSuffix
  let s1 :=
    match alookup s.chatUpdates userID with
    | none => s
    | some updates =>
      if updates.length > 0 then
        let opened := getFileHandle m userID s
        if opened.1 && writeOk then
          let line := joinNl (updates.map m.marshal) ++ ['\n']
          { opened.2 with
            fs := aset opened.2.fs fileName ((alookup opened.2.fs fileName).getD [] ++ line),
            chatUpdates := aerase opened.2.chatUpdates userID }
        else opened.2
      else s
  if fileName ∈ s1.openFiles then
    { s1 with
      openFiles := s1.openFiles.filter (fun f => f ≠ fileName),
      fileTimers := s1.fileTimers.filter (fun f => f ≠ fileName),
      chatCache := aerase s1.chatCache userID }
  else s1

/-- A sequence of `recordChat` calls for one user, stopping at the first
failure. -/
def appendAll {T : Type} (m : StoreModel T) (userID : Str) :
    List T → StoreState T → Bool × StoreState T
  | [], s => (true, s)
  | e :: rest, s =>
    let r := recordChat m userID e s
    if r.1 then appendAll m userID rest r.2 else r

/-! ### Mutex identity and the registry (src/store/index.ts lines 72-77 and 158)

The flat model above treats each operation as atomic because the source
serializes them through `this.mutexes`.  What that registry actually
guarantees depends on object identity: `getMutex` hands out the mutex object
stored in the map, creating a fresh object when the key is absent, and
`flushAndCloseFile` deletes the map entry in its finally block right after
releasing.  `MutexReg` models mutex objects by numeric identity so that
this lifecycle can be examined. -/
structure MutexReg where
  mutexes : List (Str × Nat)
  nextMutex : Nat
  held : List Nat
  deriving DecidableEq

/-- `getMutex(userID)` (lines 72-77, and MutexManager.getMutex in
src/common/utils.ts): return the registered mutex object, creating a fresh
`new Mutex()` when the key is absent. -/
def getMutexId (k : Str) (r : MutexReg) : Nat × MutexReg :=
  match alookup r.mutexes k with
  | some i => (i, r)
  | none =>
    (r.nextMutex,
     { r with mutexes := aset r.mutexes k r.nextMutex, nextMutex := r.nextMutex + 1 })

/-- One acquisition step of `mutex.acquire()` on a given mutex object:
succeeds immediately when the object is unlocked, otherwise the caller
keeps waiting on that same object (`none`). -/
def tryAcquire (i : Nat) (r : MutexReg) : Option MutexReg :=
  if i ∈ r.held then none else some { r with held := i :: r.held }

/-- `release()` on a mutex object. -/
def releaseMutex (i : Nat) (r : MutexReg) : MutexReg :=
  { r with held := r.held.filter (fun j => j ≠ i) }

/-- `this.mutexes.delete(userID)` in the finally block of
`flushAndCloseFile` (line 158). -/
def deleteMutexEntry (k : Str) (r : MutexReg) : MutexReg :=
  { r with mutexes := aerase r.mutexes k }

/-- The key used in the concrete registry traces. -/
def keyU1 : Str := ['u', '1']

/-- A concrete interleaving on one key, following the source order of
events.  A timer-driven `flushAndCloseFile` takes the lock; `recordChat`
for caller A arrives during the flush, fetches the same mutex object and
has to wait on it; the flush releases and then deletes the registry entry
while A is still waiting; A then acquires the old object and starts its
critical section; `recordChat` for caller B arrives next, is handed a brand
new unlocked mutex object by `getMutex`, and acquires it at once.  Every
step is checked: the result is `none` unless the trace proceeds exactly as
described, and otherwise returns the mutex objects bound by A and B and the
final registry state. -/
def lockScenario : Option (Nat × Nat × MutexReg) :=
  let r0 : MutexReg := ⟨[], 0, []⟩
  let f := getMutexId keyU1 r0
  match tryAcquire f.1 f.2 with
  | none => none
  | some r2 =>
    let a := getMutexId keyU1 r2
    match tryAcquire a.1 a.2 with
    | some _ => none
    | none =>
      let r4 := releaseMutex f.1 a.2
      let r5 := deleteMutexEntry keyU1 r4
      match tryAcquire a.1 r5 with
      | none => none
      | some r6 =>
        let b := getMutexId keyU1 r6
        match tryAcquire b.1 b.2 with
        | none => none
        | some r8 => some (a.1, b.1, r8)

/-! ### Array identity of the chat cache (src/store/index.ts lines 190-194
and 218-227)

`getChatHistory` returns the array object stored in `chatCache` itself, not
a copy.  The snapshot guarantee therefore rests on `recordChat` replacing
the cached array with a freshly allocated `[...cachedHistories, chat]`
rather than pushing into it.  `HeapStore` models JS arrays as heap cells
with numeric identities to make that visible. -/
structure HeapStore (T : Type) where
  arrays : List (Nat × List T)
  nextArr : Nat
  cacheRef : List (Str × Nat)
  updatesRef : List (Str × Nat)
  deriving DecidableEq

/-- Contents of a heap array. -/
def readArr {T : Type} (s : HeapStore T) (i : Nat) : List T :=
  (alookup s.arrays i).getD []

/-- The return of `getChatHistory` once the cache is populated (line 223):
`histories = this.chatCache.get(userID)` hands the array reference itself to
the caller.  The cold-load branch (lines 220-222) cannot fire under the
hypotheses used below and its effect on contents is covered by the flat
model. -/
def getChatHistoryRef {T : Type} (userID : Str) (s : HeapStore T) :
    Option Nat × HeapStore T :=
  (alookup s.cacheRef userID, s)

/-- The mutation core of `recordChat` (lines 187-194) at array granularity:
ensure an updates array exists, push the entry into the updates array in
place, then bind `chatCache` to a freshly allocated array holding
`[...cachedHistories, chat]`. -/
def recordChatRef {T : Type} (userID : Str) (chat : T) (s : HeapStore T) : HeapStore T :=
  let s1 :=
    match alookup s.updatesRef userID with
    | some _ => s
    | none =>
      { s with
        arrays := aset s.arrays s.nextArr [],
        updatesRef := aset s.updatesRef userID s.nextArr,
        nextArr := s.nextArr + 1 }
  let s2 :=
    match alookup s1.updatesRef userID with
    | some ui => { s1 with arrays := aset s1.arrays ui (readArr s1 ui ++ [chat]) }
    | none => s1
  let cached :=
    match alookup s2.cacheRef userID with
    | some ci => readArr s2 ci
    | none => []
  { s2 with
    arrays := aset s2.arrays s2.nextArr (cached ++ [chat]),
    cacheRef := aset s2.cacheRef userID s2.nextArr,
    nextArr := s2.nextArr + 1 }

/-! ### The QA single-flight orchestrator (src/qa.ts) -/

/-- `BaseMessage` as used by the QA layer: `HumanMessage` or `AIMessage`
with a string content. -/
inductive Msg where
  | human : Str → Msg
  | ai : Str → Msg
  deriving DecidableEq

/-- The content string of a message. -/
def Msg.content : Msg → Str
  | human c => c
  | ai c => c

/-- Apply a function to the content, keeping the message type. -/
def mapMsgContent (f : Str → Str) : Msg → Msg
  | .human c => .human (f c)
  | .ai c => .ai (f c)

/-- The global replacement `content.replace(/(\r\n|\n|\r)/g, ' ')` in
`storeMarshal`: each line break (a CRLF pair, a lone LF, or a lone CR) is
replaced by one space, leftmost first with CRLF preferred, exactly as the
regex alternation orders it. -/
def newlinesToSpace : Str → Str
  | [] => []
  | a :: rest =>
    if a = '\r' then
      match rest with
      | [] => [' ']
      | '\n' :: rest2 => ' ' :: newlinesToSpace rest2
      | b :: rest2 => ' ' :: newlinesToSpace (b :: rest2)
    else if a = '\n' then ' ' :: newlinesToSpace rest
    else a :: newlinesToSpace rest

/-- `QA.storeMarshal` (src/qa.ts lines 128-139): one-line the content and
tag it with the message type. -/
def storeMarshal (msg : Msg) : Str :=
  match msg with
  | .human c => 'h' :: ':' :: newlinesToSpace c
  | .ai c => 'a' :: ':' :: newlinesToSpace c

/-- `QA.storeUnmarshal` (src/qa.ts lines 141-148): dispatch on the first
character and take `data.substring(2)` as the content; anything else throws
(`none`). -/
def storeUnmarshal (data : Str) : Option Msg :=
  match data with
  | 'h' :: rest => some (.human (rest.drop 1))
  | 'a' :: rest => some (.ai (rest.drop 1))
  | _ => none

/-- The store configuration built by `QA.init`: the file-name component
`DefaultStorePrefix = 'history_'` and the QA marshal pair. -/
def qaModel : StoreModel Msg :=
  ⟨['h', 'i', 's', 't', 'o', 'r', 'y', '_'], storeMarshal, storeUnmarshal⟩

/-- Errors surfaced by `historyAwareAnswer`: the `MutexLockedError` thrown
on contention (class defined in src/common/mutex.ts, thrown at qa.ts line
75 with the message `answer is already in progress`), a persistence error
propagated from the store, or the wrapped answer computation failure
propagated verbatim. -/
inductive QAErr where
  | mutexLocked : QAErr
  | storeFailed : QAErr
  | underlying : Str → QAErr
  deriving DecidableEq

/-- The orchestrator state: the `MutexManager` map from store key to the
locked flag of its mutex, plus the store. -/
structure QAState where
  mutexes : List (Str × Bool)
  store : StoreState Msg

/-- `this.getMutex(storeKey)` (MutexManager.getMutex, src/common/utils.ts
lines 55-60) followed by `mutex.isLocked()`: create an unlocked mutex when
the key is absent and report the locked flag. -/
def getMutexQA (k : Str) (qs : QAState) : Bool × QAState :=
  match alookup qs.mutexes k with
  | some b => (b, qs)
  | none => (false, { qs with mutexes := aset qs.mutexes k false })

/-- Set the locked flag of the mutex for a key (`acquire` / `release`). -/
def setLocked (k : Str) (b : Bool) (qs : QAState) : QAState :=
  { qs with mutexes := aset qs.mutexes k b }

/-- `QA.historyAwareAnswer(storeKey, question)` (src/qa.ts lines 65-91).
The store is initialized (`this.store` present).  The `answer` method is
the external answerer capability, passed as `ans`; it may fail, and the
failure (or a store failure) propagates after the finally releases the
mutex.  On success the original question and the answer are recorded, in
that order. -/
def historyAwareAnswer (ans : Str → List Msg → Except Str Str)
    (storeKey : Str) (question : Str) (qs : QAState) : Except QAErr Str × QAState :=
  let g := getMutexQA storeKey qs
  if g.1 then (.error .mutexLocked, g.2)
  else
    let qs1 := setLocked storeKey true g.2
    let r := getChatHistory qaModel storeKey qs1.store
    match r.1 with
    | none => (.error .storeFailed, setLocked storeKey false { qs1 with store := r.2 })
    | some chatHistory =>
      match ans question chatHistory with
      | .error e =>
        (.error (.underlying e), setLocked storeKey false { qs1 with store := r.2 })
      | .ok answer =>
        let w1 := recordChat qaModel storeKey (Msg.human question) r.2
        if w1.1 then
          let w2 := recordChat qaModel storeKey (Msg.ai answer) w1.2
          if w2.1 then
            (.ok answer, setLocked storeKey false { qs1 with store := w2.2 })
          else (.error .storeFailed, setLocked storeKey false { qs1 with store := w2.2 })
        else (.error .storeFailed, setLocked storeKey false { qs1 with store := w1.2 })

/-- The last character of a nonempty string (space for the empty string). -/
def lastCh : Str → Char
  | [] => ' '
  | [c] => c
  | _ :: c :: rest => lastCh (c :: rest)

/-- A marshaled line that survives the cold-load `trim`/`split` untouched:
nonempty, no newline inside, and no JS whitespace at either end. -/
def goodLine (l : Str) : Prop :=
  l ≠ [] ∧ isJsWhitespace l.headI = false ∧ isJsWhitespace (lastCh l) = false ∧
    '\n' ∉ l

instance goodLine_decidable (l : Str) : Decidable (goodLine l) := by
  unfold goodLine
  infer_instance

/-! ### Concrete instantiations used by witnesses and counterexamples -/

/-- A store over plain strings with identity marshal/unmarshal and the
suffix used by the Store tests. -/
def cexModel : StoreModel Str :=
  ⟨['_'], fun t => t, fun t => some t⟩

/-- A store whose unmarshal function throws on every line, to exhibit reads
that never invoke it. -/
def poisonModel : StoreModel Str :=
  ⟨['_'], fun t => t, fun _ => none⟩

/-- The store state right after one acknowledged `recordChat` on a fresh
key: cache and pending updates hold the entry, the handle is open, the
backing file exists and is still empty. -/
def c4State : StoreState Str :=
  (recordChat cexModel ['u'] ['x'] (emptyStore Str)).2

/-! ### Lemmas and claim theorems -/

theorem alookup_aset_self {κ α : Type} [DecidableEq κ] (m : List (κ × α)) (k : κ) (v : α) :
    alookup (aset m k v) k = some v := by
  induction m with
  | nil => simp [aset, alookup]
  | cons p rest ih =>
    obtain ⟨k', w⟩ := p
    by_cases h : k' = k <;> simp [aset, alookup, h, ih]

theorem alookup_aset_ne {κ α : Type} [DecidableEq κ] (m : List (κ × α)) (k k' : κ) (v : α)
    (h : k' ≠ k) : alookup (aset m k v) k' = alookup m k' := by
  induction m with
  | nil => simp [aset, alookup, Ne.symm h]
  | cons p rest ih =>
    obtain ⟨k₀, w⟩ := p
    by_cases h0 : k₀ = k
    · subst h0
      simp [aset, alookup, Ne.symm h]
    · by_cases h1 : k₀ = k' <;> simp [aset, alookup, h0, h1, h, ih]

theorem alookup_aerase_self {κ α : Type} [DecidableEq κ] (m : List (κ × α)) (k : κ) :
    alookup (aerase m k) k = none := by
  induction m with
  | nil => simp [aerase, alookup]
  | cons p rest ih =>
    obtain ⟨k', w⟩ := p
    by_cases h : k' = k <;> simp [aerase, alookup, h, ih]

theorem alookup_aerase_ne {κ α : Type} [DecidableEq κ] (m : List (κ × α)) (k k' : κ)
    (h : k' ≠ k) : alookup (aerase m k) k' = alookup m k' := by
  induction m with
  | nil => simp [aerase, alookup]
  | cons p rest ih =>
    obtain ⟨k₀, w⟩ := p
    by_cases h0 : k₀ = k
    · subst h0
      simp [aerase, alookup, Ne.symm h, ih]
    · by_cases h1 : k₀ = k' <;> simp [aerase, alookup, h0, h1, h, ih]

/-! ### Lemmas about the JS string primitives -/

theorem splitNl_no_nl (l : Str) (h : '\n' ∉ l) : splitNl l = [l] := by
  induction l with
  | nil => simp [splitNl]
  | cons c rest ih =>
    have hc : c ≠ '\n' := fun hh => h (hh ▸ List.mem_cons_self c rest)
    have hr : '\n' ∉ rest := fun hh => h (List.mem_cons_of_mem c hh)
    simp [splitNl, hc, ih hr]

theorem splitNl_append_nl (l t : Str) (h : '\n' ∉ l) :
    splitNl (l ++ '\n' :: t) = l :: splitNl t := by
  induction l with
  | nil => simp [splitNl]
  | cons c rest ih =>
    have hc : c ≠ '\n' := fun hh => h (hh ▸ List.mem_cons_self c rest)
    have hr : '\n' ∉ rest := fun hh => h (List.mem_cons_of_mem c hh)
    simp [splitNl, hc, ih hr]

theorem splitNl_joinNl (ls : List Str) (hne : ls ≠ []) (h : ∀ l ∈ ls, '\n' ∉ l) :
    splitNl (joinNl ls) = ls := by
  induction ls with
  | nil => exact absurd rfl hne
  | cons l rest ih =>
    cases rest with
    | nil => simpa [joinNl] using splitNl_no_nl l (h l (List.mem_cons_self l []))
    | cons r rest' =>
      have hl : '\n' ∉ l := h l (List.mem_cons_self l (r :: rest'))
      have hrest : ∀ x ∈ r :: rest', '\n' ∉ x := fun x hx => h x (List.mem_cons_of_mem l hx)
      have : joinNl (l :: r :: rest') = l ++ '\n' :: joinNl (r :: rest') := rfl
      rw [this, splitNl_append_nl l _ hl, ih (by simp) hrest]

theorem jsTrimLeft_no_ws_head (c : Char) (t : Str) (hc : isJsWhitespace c = false) :
    jsTrimLeft (c :: t) = c :: t := by
  simp [jsTrimLeft, List.dropWhile_cons, hc]

theorem dropWhile_all_ws (l : Str) (h : ∀ c ∈ l, isJsWhitespace c = true) :
    l.dropWhile (fun c => isJsWhitespace c) = [] := by
  induction l with
  | nil => rfl
  | cons c rest ih =>
    have hc := h c (List.mem_cons_self c rest)
    simp [List.dropWhile_cons, hc, ih (fun x hx => h x (List.mem_cons_of_mem c hx))]

theorem jsTrim_all_ws (l : Str) (h : ∀ c ∈ l, isJsWhitespace c = true) : jsTrim l = [] := by
  have h1 : jsTrimLeft l = [] := dropWhile_all_ws l h
  simp [jsTrim, h1]

theorem jsTrim_nil : jsTrim [] = [] := rfl

/-- Trimming a block that starts and ends with non-whitespace characters and
carries one trailing newline recovers the block. -/
theorem jsTrim_block_nl (c : Char) (mid : Str) (d : Char)
    (hc : isJsWhitespace c = false) (hd : isJsWhitespace d = false) :
    jsTrim ((c :: mid) ++ [d] ++ ['\n']) = (c :: mid) ++ [d] := by
  have h1 : jsTrimLeft ((c :: mid) ++ [d] ++ ['\n']) = (c :: mid) ++ [d] ++ ['\n'] := by
    have : (c :: mid) ++ [d] ++ ['\n'] = c :: (mid ++ [d] ++ ['\n']) := by simp
    rw [this, jsTrimLeft_no_ws_head c _ hc]
  have h2 : ((c :: mid) ++ [d] ++ ['\n']).reverse = '\n' :: d :: (c :: mid).reverse := by
    simp
  have h3 : ('\n' :: d :: (c :: mid).reverse).dropWhile (fun x => isJsWhitespace x)
      = d :: (c :: mid).reverse := by
    have hnl : isJsWhitespace '\n' = true := by decide
    simp [List.dropWhile_cons, hnl, hd]
  calc jsTrim ((c :: mid) ++ [d] ++ ['\n'])
      = (((c :: mid) ++ [d] ++ ['\n']).reverse.dropWhile (fun x => isJsWhitespace x)).reverse := by
        rw [jsTrim, h1]
    _ = (d :: (c :: mid).reverse).reverse := by rw [h2, h3]
    _ = (c :: mid) ++ [d] := by simp

/-- The one-character version (line of length one). -/
theorem jsTrim_single_nl (c : Char) (hc : isJsWhitespace c = false) :
    jsTrim ([c] ++ ['\n']) = [c] := by
  have h1 : jsTrimLeft ([c] ++ ['\n']) = [c] ++ ['\n'] := jsTrimLeft_no_ws_head c _ hc
  have h3 : (['\n', c] : Str).dropWhile (fun x => isJsWhitespace x) = [c] := by
    have hnl : isJsWhitespace '\n' = true := by decide
    simp [List.dropWhile_cons, hnl, hc]
  calc jsTrim ([c] ++ ['\n'])
      = ((([c] ++ ['\n']) : Str).reverse.dropWhile (fun x => isJsWhitespace x)).reverse := by
        rw [jsTrim, h1]
    _ = ([c] : Str).reverse := by norm_num [h3]
    _ = [c] := by simp

theorem lastCh_concat (ys : Str) (d : Char) : lastCh (ys ++ [d]) = d := by
  induction ys with
  | nil => rfl
  | cons y ys ih =>
    cases ys with
    | nil => rfl
    | cons z zs => exact ih

theorem goodLine_shape (l : Str) (hg : goodLine l) :
    (∃ c, l = [c] ∧ isJsWhitespace c = false) ∨
    (∃ c mid d, l = (c :: mid) ++ [d] ∧ isJsWhitespace c = false ∧ isJsWhitespace d = false) := by
  obtain ⟨hne, hh, hl, -⟩ := hg
  cases l with
  | nil => exact absurd rfl hne
  | cons c t =>
    rcases List.eq_nil_or_concat t with ht | ⟨ys, d, ht⟩
    · subst ht
      exact Or.inl ⟨c, rfl, by simpa [lastCh] using hl⟩
    · have ht' : t = ys ++ [d] := by rw [ht, List.concat_eq_append]
      subst ht'
      refine Or.inr ⟨c, ys, d, rfl, by simpa using hh, ?_⟩
      have h2 : lastCh (c :: (ys ++ [d])) = d := by
        have : c :: (ys ++ [d]) = (c :: ys) ++ [d] := by simp
        rw [this, lastCh_concat]
      rwa [h2] at hl

theorem joinNl_shape (ls : List Str) (hne : ls ≠ []) (hg : ∀ l ∈ ls, goodLine l) :
    (∃ c, joinNl ls = [c] ∧ isJsWhitespace c = false) ∨
    (∃ c mid d, joinNl ls = (c :: mid) ++ [d] ∧
      isJsWhitespace c = false ∧ isJsWhitespace d = false) := by
  induction ls with
  | nil => exact absurd rfl hne
  | cons l rest ih =>
    cases rest with
    | nil =>
      have := goodLine_shape l (hg l (List.mem_cons_self l []))
      simpa [joinNl] using this
    | cons r rest' =>
      have hjoin : joinNl (l :: r :: rest') = l ++ '\n' :: joinNl (r :: rest') := rfl
      have hgl := goodLine_shape l (hg l (List.mem_cons_self l (r :: rest')))
      have hrest := ih (by simp) (fun x hx => hg x (List.mem_cons_of_mem l hx))
      obtain ⟨c, hl1, hc⟩ | ⟨c, mid, d, hl1, hc, -⟩ := hgl <;>
        obtain ⟨d', hj, hd'⟩ | ⟨c', mid', d', hj, -, hd'⟩ := hrest
      · refine Or.inr ⟨c, ['\n'], d', ?_, hc, hd'⟩
        rw [hjoin, hl1, hj]
        simp
      · refine Or.inr ⟨c, '\n' :: c' :: mid', d', ?_, hc, hd'⟩
        rw [hjoin, hl1, hj]
        simp
      · refine Or.inr ⟨c, mid ++ [d, '\n'], d', ?_, hc, hd'⟩
        rw [hjoin, hl1, hj]
        simp
      · refine Or.inr ⟨c, mid ++ [d] ++ '\n' :: c' :: mid', d', ?_, hc, hd'⟩
        rw [hjoin, hl1, hj]
        simp

theorem joinNl_ne_nil_of_good (ls : List Str) (hne : ls ≠ []) (hg : ∀ l ∈ ls, goodLine l) :
    joinNl ls ≠ [] := by
  obtain ⟨c, h1, -⟩ | ⟨c, mid, d, h1, -, -⟩ := joinNl_shape ls hne hg <;> simp [h1]

theorem jsTrim_joinNl_nl (ls : List Str) (hne : ls ≠ []) (hg : ∀ l ∈ ls, goodLine l) :
    jsTrim (joinNl ls ++ ['\n']) = joinNl ls := by
  obtain ⟨c, h1, hc⟩ | ⟨c, mid, d, h1, hc, hd⟩ := joinNl_shape ls hne hg
  · rw [h1]
    exact jsTrim_single_nl c hc
  · rw [h1]
    exact jsTrim_block_nl c mid d hc hd

theorem coldParse_joined {T : Type} (m : StoreModel T) (ls : List Str) (hne : ls ≠ [])
    (hg : ∀ l ∈ ls, goodLine l) :
    coldParse m (joinNl ls ++ ['\n']) = unmarshalAll m ls := by
  have htrim := jsTrim_joinNl_nl ls hne hg
  have hjne := joinNl_ne_nil_of_good ls hne hg
  have hsplit : splitNl (joinNl ls) = ls :=
    splitNl_joinNl ls hne (fun l hl => (hg l hl).2.2.2)
  simp [coldParse, htrim, hjne, hsplit]

theorem unmarshalAll_roundtrip {T : Type} (m : StoreModel T) (es : List T)
    (h : ∀ e ∈ es, m.unmarshal (m.marshal e) = some e) :
    unmarshalAll m (es.map m.marshal) = some es := by
  induction es with
  | nil => rfl
  | cons e rest ih =>
    have he := h e (List.mem_cons_self e rest)
    have hr := ih (fun x hx => h x (List.mem_cons_of_mem e hx))
    simp [unmarshalAll, he, hr]

/-! ### Lemmas about the store operations -/

@[simp] theorem resetFileTimer_openFiles {T : Type} (fn : Str) (s : StoreState T) :
    (resetFileTimer fn s).openFiles = s.openFiles := by
  unfold resetFileTimer
  split <;> rfl

@[simp] theorem resetFileTimer_chatCache {T : Type} (fn : Str) (s : StoreState T) :
    (resetFileTimer fn s).chatCache = s.chatCache := by
  unfold resetFileTimer
  split <;> rfl

@[simp] theorem resetFileTimer_chatUpdates {T : Type} (fn : Str) (s : StoreState T) :
    (resetFileTimer fn s).chatUpdates = s.chatUpdates := by
  unfold resetFileTimer
  split <;> rfl

@[simp] theorem resetFileTimer_fs {T : Type} (fn : Str) (s : StoreState T) :
    (resetFileTimer fn s).fs = s.fs := by
  unfold resetFileTimer
  split <;> rfl

theorem recordChat_cached {T : Type} (m : StoreModel T) (u : Str) (e : T) (s : StoreState T)
    (hist : List T) (hc : alookup s.chatCache u = some hist) :
    (recordChat m u e s).1 = true ∧
    alookup (recordChat m u e s).2.chatCache u = some (hist ++ [e]) ∧
    alookup (recordChat m u e s).2.chatUpdates u =
      some ((alookup s.chatUpdates u).getD [] ++ [e]) ∧
    (recordChat m u e s).2.openFiles = s.openFiles ∧
    (recordChat m u e s).2.fs = s.fs := by
  cases hu : alookup s.chatUpdates u with
  | none =>
    simp [recordChat, hc, hu, alookup_aset_self]
  | some w =>
    simp [recordChat, hc, hu, alookup_aset_self]

theorem recordChat_fresh {T : Type} (m : StoreModel T) (u : Str) (e : T) (s : StoreState T)
    (hc : alookup s.chatCache u = none)
    (hf : alookup s.fs (getFileName m u) = none)
    (ho : getFileName m u ∉ s.openFiles) :
    (recordChat m u e s).1 = true ∧
    alookup (recordChat m u e s).2.chatCache u = some [e] ∧
    alookup (recordChat m u e s).2.chatUpdates u =
      some ((alookup s.chatUpdates u).getD [] ++ [e]) ∧
    (recordChat m u e s).2.openFiles = getFileName m u :: s.openFiles ∧
    (recordChat m u e s).2.fs = aset s.fs (getFileName m u) [] := by
  have hparse : coldParse m [] = some [] := by simp [coldParse, jsTrim_nil]
  cases hu : alookup s.chatUpdates u with
  | none =>
    simp [recordChat, getFileHandle, hc, hf, ho, hu, hparse, alookup_aset_self, jsTrim_nil]
  | some w =>
    simp [recordChat, getFileHandle, hc, hf, ho, hu, hparse, alookup_aset_self, jsTrim_nil]

theorem appendAll_cached {T : Type} (m : StoreModel T) (u : Str) (es : List T) :
    ∀ (s : StoreState T) (hist w : List T),
    alookup s.chatCache u = some hist → alookup s.chatUpdates u = some w →
    (appendAll m u es s).1 = true ∧
    alookup (appendAll m u es s).2.chatCache u = some (hist ++ es) ∧
    alookup (appendAll m u es s).2.chatUpdates u = some (w ++ es) ∧
    (appendAll m u es s).2.openFiles = s.openFiles ∧
    (appendAll m u es s).2.fs = s.fs := by
  induction es with
  | nil => intro s hist w hc hu; simp [appendAll, hc, hu]
  | cons e rest ih =>
    intro s hist w hc hu
    obtain ⟨h1, h2, h3, h4, h5⟩ := recordChat_cached m u e s hist hc
    rw [hu] at h3
    have hstep : appendAll m u (e :: rest) s = appendAll m u rest (recordChat m u e s).2 := by
      simp [appendAll, h1]
    obtain ⟨g1, g2, g3, g4, g5⟩ := ih (recordChat m u e s).2 (hist ++ [e]) (w ++ [e]) h2 h3
    refine ⟨by rw [hstep]; exact g1, ?_, ?_, ?_, ?_⟩
    · rw [hstep, g2]
      simp
    · rw [hstep, g3]
      simp
    · rw [hstep, g4, h4]
    · rw [hstep, g5, h5]

theorem getChatHistory_cached {T : Type} (m : StoreModel T) (u : Str) (s : StoreState T)
    (hist : List T) (hc : alookup s.chatCache u = some hist) :
    (getChatHistory m u s).1 = some hist ∧
    (getChatHistory m u s).2.chatCache = s.chatCache ∧
    (getChatHistory m u s).2.chatUpdates = s.chatUpdates ∧
    (getChatHistory m u s).2.openFiles = s.openFiles ∧
    (getChatHistory m u s).2.fs = s.fs := by
  simp [getChatHistory, hc]

theorem getChatHistory_cold {T : Type} (m : StoreModel T) (u : Str) (s : StoreState T)
    (content : Str) (hs : List T)
    (hc : alookup s.chatCache u = none)
    (ho : getFileName m u ∉ s.openFiles)
    (hf : alookup s.fs (getFileName m u) = some content)
    (hparse : coldParse m content = some hs) :
    (getChatHistory m u s).1 = some hs := by
  simp [getChatHistory, getFileHandle, hc, ho, hf, hparse, alookup_aset_self]

theorem dropSuffixCh_append (u suf : Str) : dropSuffixCh (u ++ suf) suf = u := by
  have hlen : (u ++ suf).length - suf.length = u.length := by simp
  simp [dropSuffixCh, hlen, List.drop_left, List.take_left, Nat.le_add_left]

theorem flush_success {T : Type} (m : StoreModel T) (u : Str) (s : StoreState T)
    (es : List T) (cont : Str)
    (hu : alookup s.chatUpdates u = some es) (hne : es ≠ [])
    (hopen : getFileName m u ∈ s.openFiles)
    (hfs : alookup s.fs (getFileName m u) = some cont) :
    alookup (flushAndCloseFile m (getFileName m u) true s).fs (getFileName m u) =
      some (cont ++ (joinNl (es.map m.marshal) ++ ['\n'])) ∧
    alookup (flushAndCloseFile m (getFileName m u) true s).chatCache u = none ∧
    getFileName m u ∉ (flushAndCloseFile m (getFileName m u) true s).openFiles ∧
    alookup (flushAndCloseFile m (getFileName m u) true s).chatUpdates u = none := by
  have hbase : dropSuffixCh (getFileName m u) m.fileSuffix = u := by
    simp [getFileName, dropSuffixCh_append]
  have hlen : 0 < es.length := List.length_pos.mpr hne
  simp [flushAndCloseFile, hbase, hu, hlen, getFileHandle, hopen, hfs,
    alookup_aset_self, alookup_aerase_self, List.mem_filter]

theorem getChatHistory_fresh_absent {T : Type} (m : StoreModel T) (u : Str) (s : StoreState T)
    (hc : alookup s.chatCache u = none)
    (hf : alookup s.fs (getFileName m u) = none)
    (ho : getFileName m u ∉ s.openFiles) :
    (getChatHistory m u s).1 = some [] := by
  simp [getChatHistory, getFileHandle, hc, hf, ho, coldParse, jsTrim_nil, alookup_aset_self]

theorem appendAll_fresh {T : Type} (m : StoreModel T) (u : Str) (e : T) (rest : List T)
    (s : StoreState T)
    (hc : alookup s.chatCache u = none)
    (hu0 : alookup s.chatUpdates u = none)
    (hf : alookup s.fs (getFileName m u) = none)
    (ho : getFileName m u ∉ s.openFiles) :
    (appendAll m u (e :: rest) s).1 = true ∧
    alookup (appendAll m u (e :: rest) s).2.chatCache u = some (e :: rest) ∧
    alookup (appendAll m u (e :: rest) s).2.chatUpdates u = some (e :: rest) ∧
    getFileName m u ∈ (appendAll m u (e :: rest) s).2.openFiles ∧
    alookup (appendAll m u (e :: rest) s).2.fs (getFileName m u) = some [] := by
  obtain ⟨h1, h2, h3, h4, h5⟩ := recordChat_fresh m u e s hc hf ho
  rw [hu0] at h3
  simp only [Option.getD_none, List.nil_append] at h3
  have hstep : appendAll m u (e :: rest) s = appendAll m u rest (recordChat m u e s).2 := by
    simp [appendAll, h1]
  obtain ⟨g1, g2, g3, g4, g5⟩ := appendAll_cached m u rest (recordChat m u e s).2 [e] [e] h2 h3
  refine ⟨by rw [hstep]; exact g1, ?_, ?_, ?_, ?_⟩
  · rw [hstep, g2]
    simp
  · rw [hstep, g3]
    simp
  · rw [hstep, g4, h4]
    exact List.mem_cons_self _ _
  · rw [hstep, g5, h5]
    exact alookup_aset_self s.fs (getFileName m u) []

theorem coldParse_nil {T : Type} (m : StoreModel T) : coldParse m [] = some [] := by
  simp [coldParse, jsTrim_nil]

theorem getChatHistory_chatUpdates {T : Type} (m : StoreModel T) (u : Str) (s : StoreState T) :
    (getChatHistory m u s).2.chatUpdates = s.chatUpdates := by
  by_cases hc : (alookup s.chatCache u).isSome
  · simp [getChatHistory, hc]
  · by_cases ho : getFileName m u ∈ s.openFiles
    · simp [getChatHistory, getFileHandle, hc, ho]
    · cases hf : alookup s.fs (getFileName m u) with
      | none =>
        simp [getChatHistory, getFileHandle, hc, ho, hf, coldParse_nil m]
      | some content =>
        cases hp : coldParse m content with
        | some hs => simp [getChatHistory, getFileHandle, hc, ho, hf, hp]
        | none => simp [getChatHistory, getFileHandle, hc, ho, hf, hp]

theorem getChatHistory_repeat {T : Type} (m : StoreModel T) (u : Str) (s : StoreState T)
    (h : List T) (h1 : (getChatHistory m u s).1 = some h) :
    (getChatHistory m u (getChatHistory m u s).2).1 = some h := by
  cases hc : alookup s.chatCache u with
  | some hist =>
    have hfacts := getChatHistory_cached m u s hist hc
    rw [hfacts.1] at h1
    have hh : hist = h := by injection h1
    subst hh
    have hcache2 : alookup (getChatHistory m u s).2.chatCache u = some hist := by
      rw [hfacts.2.1, hc]
    exact (getChatHistory_cached m u (getChatHistory m u s).2 hist hcache2).1
  | none =>
    by_cases ho : getFileName m u ∈ s.openFiles
    · simp [getChatHistory, getFileHandle, hc, ho] at h1 ⊢
      exact h1
    · cases hf : alookup s.fs (getFileName m u) with
      | none =>
        simp [getChatHistory, getFileHandle, hc, ho, hf, coldParse_nil m,
          alookup_aset_self] at h1 ⊢
        exact h1
      | some content =>
        cases hp : coldParse m content with
        | some hs =>
          simp [getChatHistory, getFileHandle, hc, ho, hf, hp, alookup_aset_self] at h1 ⊢
          exact h1
        | none =>
          simp [getChatHistory, getFileHandle, hc, ho, hf, hp] at h1

/-! ### The claims -/

/-- Claim C1: the spec requires that the registry never removes a key's
lock object while some caller holds it or waits on it, so that concurrent
operations on one key always synchronize on the same lock object.  The code
violates this: `flushAndCloseFile` deletes the `mutexes` entry right after
releasing, so in the concrete trace `lockScenario` a caller A that was
waiting on the old mutex object and a later caller B that is handed a fresh
mutex object both hold a lock for the same key at the same time. -/
theorem mutexRegistry_delete_breaks_exclusion :
    ∃ iA iB r, lockScenario = some (iA, iB, r) ∧ iA ≠ iB ∧ iA ∈ r.held ∧ iB ∈ r.held := by
  refine ⟨0, 1, ⟨[(keyU1, 1)], 2, [1, 0]⟩, ?_, ?_, ?_, ?_⟩ <;> decide

/-- Claim C2: entries appended in order to a fresh key via `recordChat` are
returned by a subsequent `getChatHistory` exactly in that order, with no
reordering or duplication, before any flush. -/
theorem recordChat_then_read_exact {T : Type} (m : StoreModel T) (u : Str) (es : List T)
    (s : StoreState T)
    (hc : alookup s.chatCache u = none)
    (hu0 : alookup s.chatUpdates u = none)
    (hf : alookup s.fs (getFileName m u) = none)
    (ho : getFileName m u ∉ s.openFiles) :
    (appendAll m u es s).1 = true ∧
    (getChatHistory m u (appendAll m u es s).2).1 = some es := by
  cases es with
  | nil =>
    refine ⟨rfl, ?_⟩
    have : (appendAll m u [] s).2 = s := rfl
    rw [this]
    exact getChatHistory_fresh_absent m u s hc hf ho
  | cons e rest =>
    obtain ⟨h1, h2, -, -, -⟩ := appendAll_fresh m u e rest s hc hu0 hf ho
    exact ⟨h1, (getChatHistory_cached m u _ (e :: rest) h2).1⟩

/-- Witness for C2 at a concrete input. -/
theorem recordChat_then_read_exact_witness :
    (appendAll cexModel ['u'] [['h', 'i'], ['y', 'o']] (emptyStore Str)).1 = true ∧
    (getChatHistory cexModel ['u']
      (appendAll cexModel ['u'] [['h', 'i'], ['y', 'o']] (emptyStore Str)).2).1 =
      some [['h', 'i'], ['y', 'o']] :=
  recordChat_then_read_exact cexModel ['u'] [['h', 'i'], ['y', 'o']] (emptyStore Str)
    (by decide) (by decide) (by decide) (by decide)

/-- Claim C3, counterexample: the claim asks only that `unmarshal ∘ marshal`
be the identity on the appended entries and that marshaled entries contain
no line separator; that is not sufficient.  The entry `[' ']` satisfies both
provisos under the identity marshal, a read before flush-and-close returns
it, yet the reload after a successful flush-and-close returns the empty
history, because the cold load trims the whitespace that the marshaled
entry consists of. -/
theorem flushReload_trim_cex :
    cexModel.unmarshal (cexModel.marshal [' ']) = some [' '] ∧
    '\n' ∉ cexModel.marshal [' '] ∧
    (getChatHistory cexModel ['u']
      (recordChat cexModel ['u'] [' '] (emptyStore Str)).2).1 = some [[' ']] ∧
    (getChatHistory cexModel ['u']
      (flushAndCloseFile cexModel (getFileName cexModel ['u']) true
        (recordChat cexModel ['u'] [' '] (emptyStore Str)).2)).1 = some [] ∧
    (some [] : Option (List Str)) ≠ some [[' ']] := by
  refine ⟨?_, ?_, ?_, ?_, ?_⟩ <;> decide

/-- Claim C3 as amended: the reload after a successful flush-and-close
returns the same sequence as a read before the close, provided additionally
that each marshaled entry is nonempty and neither starts nor ends with a JS
whitespace character (otherwise the cold-load trim is lossy). -/
theorem flushReload_roundTrip {T : Type} (m : StoreModel T) (u : Str) (es : List T)
    (s : StoreState T)
    (hne : es ≠ [])
    (hc : alookup s.chatCache u = none)
    (hu0 : alookup s.chatUpdates u = none)
    (hf : alookup s.fs (getFileName m u) = none)
    (ho : getFileName m u ∉ s.openFiles)
    (hround : ∀ e ∈ es, m.unmarshal (m.marshal e) = some e)
    (hgood : ∀ e ∈ es, goodLine (m.marshal e)) :
    (appendAll m u es s).1 = true ∧
    (getChatHistory m u (appendAll m u es s).2).1 = some es ∧
    (getChatHistory m u
      (flushAndCloseFile m (getFileName m u) true (appendAll m u es s).2)).1 = some es := by
  cases es with
  | nil => exact absurd rfl hne
  | cons e rest =>
    obtain ⟨h1, h2, h3, h4, h5⟩ := appendAll_fresh m u e rest s hc hu0 hf ho
    obtain ⟨f1, f2, f3, f4⟩ :=
      flush_success m u (appendAll m u (e :: rest) s).2 (e :: rest) [] h3 (by simp) h4 h5
    have hlines : ∀ l ∈ (e :: rest).map m.marshal, goodLine l := by
      intro l hl
      obtain ⟨x, hx, rfl⟩ := List.mem_map.mp hl
      exact hgood x hx
    have hparse : coldParse m ([] ++ (joinNl ((e :: rest).map m.marshal) ++ ['\n'])) =
        some (e :: rest) := by
      rw [List.nil_append,
        coldParse_joined m ((e :: rest).map m.marshal) (by simp) hlines,
        unmarshalAll_roundtrip m (e :: rest) hround]
    refine ⟨h1, (getChatHistory_cached m u _ (e :: rest) h2).1, ?_⟩
    exact getChatHistory_cold m u _ _ (e :: rest) f2 f3 f1 hparse

/-- Witness for the amended C3 at a concrete input. -/
theorem flushReload_roundTrip_witness :
    (appendAll cexModel ['u'] [['h', 'i'], ['y', 'o']] (emptyStore Str)).1 = true ∧
    (getChatHistory cexModel ['u']
      (appendAll cexModel ['u'] [['h', 'i'], ['y', 'o']] (emptyStore Str)).2).1 =
      some [['h', 'i'], ['y', 'o']] ∧
    (getChatHistory cexModel ['u']
      (flushAndCloseFile cexModel (getFileName cexModel ['u'])
        true (appendAll cexModel ['u'] [['h', 'i'], ['y', 'o']] (emptyStore Str)).2)).1 =
      some [['h', 'i'], ['y', 'o']] :=
  flushReload_roundTrip cexModel ['u'] [['h', 'i'], ['y', 'o']] (emptyStore Str)
    (by decide) (by decide) (by decide) (by decide) (by decide) (by decide) (by decide)

/-- Claim C4: the spec requires that a failed flush write retain the
pending updates and not evict the in-memory cache.  The code retains the
pending updates but evicts the cache anyway: starting from the reachable
state `c4State` (one acknowledged entry, nothing flushed), a
`flushAndCloseFile` whose write fails keeps `chatUpdates` but deletes the
`chatCache` entry, and the next read cold-loads the still-empty file and no
longer sees the acknowledged entry. -/
theorem flushWriteFailure_evicts_cache :
    alookup c4State.chatCache ['u'] = some [['x']] ∧
    alookup (flushAndCloseFile cexModel ['u', '_'] false c4State).chatUpdates ['u'] =
      some [['x']] ∧
    alookup (flushAndCloseFile cexModel ['u', '_'] false c4State).chatCache ['u'] = none ∧
    (getChatHistory cexModel ['u']
      (flushAndCloseFile cexModel ['u', '_'] false c4State)).1 = some [] := by
  refine ⟨?_, ?_, ?_, ?_⟩ <;> decide

/-- Claim C5: while a single-flight operation is in flight for a key (its
mutex is locked), a second `historyAwareAnswer` on the same key fails
immediately with the `MutexLockedError`, leaving the whole state (mutexes
and store) untouched: nothing is read, nothing is appended, nobody waits. -/
theorem historyAwareAnswer_busy_fails_fast (ans : Str → List Msg → Except Str Str)
    (k q : Str) (qs : QAState) (hb : alookup qs.mutexes k = some true) :
    historyAwareAnswer ans k q qs = (Except.error QAErr.mutexLocked, qs) := by
  simp [historyAwareAnswer, getMutexQA, hb]

/-- Witness for C5 at a concrete input. -/
theorem historyAwareAnswer_busy_fails_fast_witness :
    historyAwareAnswer (fun _ _ => Except.ok []) ['k'] ['q']
      ⟨[(['k'], true)], emptyStore Msg⟩ =
      (Except.error QAErr.mutexLocked, ⟨[(['k'], true)], emptyStore Msg⟩) :=
  historyAwareAnswer_busy_fails_fast (fun _ _ => Except.ok []) ['k'] ['q']
    ⟨[(['k'], true)], emptyStore Msg⟩ (by decide)

/-- Claim C6: when the wrapped answer computation fails, the failure is
propagated, the key's mutex is released nonetheless, and no entries are
appended: a read of the key afterwards returns exactly the history it had
before, and the pending-write buffers are untouched. -/
theorem historyAwareAnswer_failure_clean (ans : Str → List Msg → Except Str Str)
    (k q : Str) (qs : QAState) (h : List Msg) (err : Str)
    (hnb : alookup qs.mutexes k ≠ some true)
    (hread : (getChatHistory qaModel k qs.store).1 = some h)
    (hans : ans q h = Except.error err) :
    (historyAwareAnswer ans k q qs).1 = Except.error (QAErr.underlying err) ∧
    alookup (historyAwareAnswer ans k q qs).2.mutexes k = some false ∧
    (getChatHistory qaModel k (historyAwareAnswer ans k q qs).2.store).1 = some h ∧
    (historyAwareAnswer ans k q qs).2.store.chatUpdates = qs.store.chatUpdates := by
  have hg1 : (getMutexQA k qs).1 = false := by
    cases hm : alookup qs.mutexes k with
    | some b =>
      cases b with
      | true => exact absurd hm hnb
      | false => simp [getMutexQA, hm]
    | none => simp [getMutexQA, hm]
  have hgs : (getMutexQA k qs).2.store = qs.store := by
    cases hm : alookup qs.mutexes k <;> simp [getMutexQA, hm]
  refine ⟨?_, ?_, ?_, ?_⟩
  · simp [historyAwareAnswer, hg1, setLocked, hgs, hread, hans]
  · simp [historyAwareAnswer, hg1, setLocked, hgs, hread, hans, alookup_aset_self]
  · simp only [historyAwareAnswer, hg1, setLocked, hgs, hread, hans, Bool.false_eq_true,
      if_false]
    exact getChatHistory_repeat qaModel k qs.store h hread
  · simp only [historyAwareAnswer, hg1, setLocked, hgs, hread, hans, Bool.false_eq_true,
      if_false]
    exact getChatHistory_chatUpdates qaModel k qs.store

/-- Witness for C6 at a concrete input. -/
theorem historyAwareAnswer_failure_clean_witness :
    (historyAwareAnswer (fun _ _ => Except.error ['e']) ['k'] ['q']
      ⟨[], emptyStore Msg⟩).1 = Except.error (QAErr.underlying ['e']) ∧
    alookup (historyAwareAnswer (fun _ _ => Except.error ['e']) ['k'] ['q']
      ⟨[], emptyStore Msg⟩).2.mutexes ['k'] = some false ∧
    (getChatHistory qaModel ['k'] (historyAwareAnswer (fun _ _ => Except.error ['e'])
      ['k'] ['q'] ⟨[], emptyStore Msg⟩).2.store).1 = some [] ∧
    (historyAwareAnswer (fun _ _ => Except.error ['e']) ['k'] ['q']
      ⟨[], emptyStore Msg⟩).2.store.chatUpdates = (emptyStore Msg).chatUpdates :=
  historyAwareAnswer_failure_clean (fun _ _ => Except.error ['e']) ['k'] ['q']
    ⟨[], emptyStore Msg⟩ [] ['e'] (by decide) (by decide) rfl

theorem newlinesToSpace_id (s : Str) (h1 : '\n' ∉ s) (h2 : '\r' ∉ s) :
    newlinesToSpace s = s := by
  induction s with
  | nil => rfl
  | cons a t ih =>
    have ha1 : a ≠ '\n' := fun hh => h1 (hh ▸ List.mem_cons_self a t)
    have ha2 : a ≠ '\r' := fun hh => h2 (hh ▸ List.mem_cons_self a t)
    have ht1 : '\n' ∉ t := fun hh => h1 (List.mem_cons_of_mem a hh)
    have ht2 : '\r' ∉ t := fun hh => h2 (List.mem_cons_of_mem a hh)
    rw [newlinesToSpace.eq_def]
    simp [ha1, ha2, ih ht1 ht2]

/-- Claim C7, counterexample: the backing file for a fresh key is claimed
not to exist before the idle delay elapses, but the very first `recordChat`
opens it with flag `a+`, which creates it: right after the append (no
flush-and-close has run) the file exists, with empty content, whereas it
did not exist before. -/
theorem recordChat_creates_file_cex :
    alookup (emptyStore Str).fs (getFileName cexModel ['u']) = none ∧
    (recordChat cexModel ['u'] ['h', 'i'] (emptyStore Str)).1 = true ∧
    alookup (recordChat cexModel ['u'] ['h', 'i'] (emptyStore Str)).2.fs
      (getFileName cexModel ['u']) = some [] := by
  refine ⟨?_, ?_, ?_⟩ <;> decide

/-- Claim C7 as amended: before the idle delay elapses (no flush-and-close
has run), the backing file of a fresh key exists but is empty — appends and
reads leave its content untouched; entry data reaches it only at
flush-and-close. -/
theorem recordChat_file_empty_before_flush {T : Type} (m : StoreModel T) (u : Str)
    (e : T) (rest : List T) (s : StoreState T)
    (hc : alookup s.chatCache u = none)
    (hu0 : alookup s.chatUpdates u = none)
    (hf : alookup s.fs (getFileName m u) = none)
    (ho : getFileName m u ∉ s.openFiles) :
    (appendAll m u (e :: rest) s).1 = true ∧
    alookup (appendAll m u (e :: rest) s).2.fs (getFileName m u) = some [] ∧
    alookup (getChatHistory m u (appendAll m u (e :: rest) s).2).2.fs
      (getFileName m u) = some [] := by
  obtain ⟨h1, h2, h3, h4, h5⟩ := appendAll_fresh m u e rest s hc hu0 hf ho
  have hread := getChatHistory_cached m u (appendAll m u (e :: rest) s).2 (e :: rest) h2
  exact ⟨h1, h5, by rw [hread.2.2.2.2]; exact h5⟩

/-- Witness for the amended C7 at a concrete input. -/
theorem recordChat_file_empty_before_flush_witness :
    (appendAll cexModel ['u'] [['h', 'i']] (emptyStore Str)).1 = true ∧
    alookup (appendAll cexModel ['u'] [['h', 'i']] (emptyStore Str)).2.fs
      (getFileName cexModel ['u']) = some [] ∧
    alookup (getChatHistory cexModel ['u']
      (appendAll cexModel ['u'] [['h', 'i']] (emptyStore Str)).2).2.fs
      (getFileName cexModel ['u']) = some [] :=
  recordChat_file_empty_before_flush cexModel ['u'] ['h', 'i'] [] (emptyStore Str)
    (by decide) (by decide) (by decide) (by decide)

/-- Claim C8: the sequence handed out by `getChatHistory` is a snapshot:
`getChatHistory` returns the cached array object itself, and a later
`recordChat` pushes into the separate updates array and rebinds the cache to
a freshly allocated array, so the array the reader holds never gains the
new entry. -/
theorem read_snapshot_immutable {T : Type} (u : Str) (e : T) (s : HeapStore T) (ci ui : Nat)
    (hr : (getChatHistoryRef u s).1 = some ci)
    (hui : alookup s.updatesRef u = some ui)
    (hne : ci ≠ ui)
    (hfresh : ci < s.nextArr) :
    alookup (recordChatRef u e (getChatHistoryRef u s).2).arrays ci = alookup s.arrays ci := by
  have hci : alookup s.cacheRef u = some ci := hr
  have h2 : (getChatHistoryRef u s).2 = s := rfl
  have hneq1 : ci ≠ s.nextArr := Nat.ne_of_lt hfresh
  rw [h2]
  simp only [recordChatRef, hui, hci]
  rw [alookup_aset_ne _ _ _ _ hneq1, alookup_aset_ne _ _ _ _ hne]

/-- Witness for C8 at a concrete input. -/
theorem read_snapshot_immutable_witness :
    alookup (recordChatRef ['u'] ['b']
      (getChatHistoryRef ['u']
        (⟨[(0, [['a']]), (1, [['a']])], 2, [(['u'], 0)], [(['u'], 1)]⟩ : HeapStore Str)).2).arrays
      0 =
    alookup (⟨[(0, [['a']]), (1, [['a']])], 2, [(['u'], 0)], [(['u'], 1)]⟩ :
      HeapStore Str).arrays 0 :=
  read_snapshot_immutable ['u'] ['b']
    ⟨[(0, [['a']]), (1, [['a']])], 2, [(['u'], 0)], [(['u'], 1)]⟩ 0 1
    (by decide) (by decide) (by decide) (by decide)

/-- Claim C9: when the backing file of a key is absent or contains only
whitespace, the first `getChatHistory` succeeds with the empty history; the
unmarshal function is never consulted (the theorem holds for every
unmarshal, including one that always throws). -/
theorem read_blank_file_empty {T : Type} (m : StoreModel T) (u : Str) (s : StoreState T)
    (hc : alookup s.chatCache u = none)
    (ho : getFileName m u ∉ s.openFiles)
    (hfile : alookup s.fs (getFileName m u) = none ∨
      ∃ content, alookup s.fs (getFileName m u) = some content ∧
        ∀ c ∈ content, isJsWhitespace c = true) :
    (getChatHistory m u s).1 = some [] := by
  rcases hfile with hf | ⟨content, hf, hws⟩
  · exact getChatHistory_fresh_absent m u s hc hf ho
  · have hparse : coldParse m content = some [] := by
      simp [coldParse, jsTrim_all_ws content hws]
    exact getChatHistory_cold m u s content [] hc ho hf hparse

/-- Witness for C9 at a concrete input: a whitespace-only file and an
unmarshal that throws on every line. -/
theorem read_blank_file_empty_witness :
    (getChatHistory poisonModel ['u']
      ⟨[], [], [], [], [(['u', '_'], [' ', '\t'])]⟩).1 = some [] :=
  read_blank_file_empty poisonModel ['u'] ⟨[], [], [], [], [(['u', '_'], [' ', '\t'])]⟩
    (by decide) (by decide) (Or.inr ⟨[' ', '\t'], by decide, by decide⟩)

/-- Claim C10: `storeUnmarshal` after `storeMarshal` always reproduces the
message type, with every line break in the content (CRLF, LF or CR)
replaced by one space; when the content has no line-break characters the
round trip is the identity. -/
theorem storeMarshal_roundTrip (msg : Msg) :
    storeUnmarshal (storeMarshal msg) = some (mapMsgContent newlinesToSpace msg) ∧
    (('\n' ∉ msg.content ∧ '\r' ∉ msg.content) →
      storeUnmarshal (storeMarshal msg) = some msg) := by
  constructor
  · cases msg <;> simp [storeMarshal, storeUnmarshal, mapMsgContent]
  · rintro ⟨h1, h2⟩
    cases msg with
    | human c =>
      simp only [Msg.content] at h1 h2
      simp [storeMarshal, storeUnmarshal, newlinesToSpace_id c h1 h2]
    | ai c =>
      simp only [Msg.content] at h1 h2
      simp [storeMarshal, storeUnmarshal, newlinesToSpace_id c h1 h2]

/-- Witness for C10 at a concrete input. -/
theorem storeMarshal_roundTrip_witness :
    storeUnmarshal (storeMarshal (Msg.human ['h', 'i'])) = some (Msg.human ['h', 'i']) :=
  (storeMarshal_roundTrip (Msg.human ['h', 'i'])).2 (by decide)
